import Mathlib

/-!
Verification of the task-claiming and lifecycle engine of a FastAPI service.

The persisted state (`tasks` and `conversations` tables) is embedded as lists
of records.  The store operations of `app/crud.py` are embedded as pure
functions on that state: each SQL statement's effect is written out over the
lists (`UPDATE ... WHERE p` becomes a `List.map` that rewrites the rows
satisfying `p`; `rowcount` becomes the length of the rows matching the
`WHERE` clause).  Timestamps (`NOW()`) are passed in explicitly as naturals.
The worker's `process_task` is embedded with an explicit flag telling whether
the simulated-processing step raises, mirroring the try/except of
`app/background_worker.py`.

Concurrency: each store operation (claim / complete / fail) runs its
selection and update inside one transaction holding the row lock
(`FOR UPDATE SKIP LOCKED`), so concurrent executions serialize per row;
histories of the system are therefore modelled as arbitrary interleavings,
i.e. arbitrary sequences, of the atomic operations (`Op`, `runTrace`).
-/

namespace TaskEngine

/-- A row of the `tasks` table (`app/models.py`, class `Task`). -/
structure Task where
  id : Nat
  title : String
  description : Option String
  status : String
  createdAt : Nat
  updatedAt : Nat
  processedAt : Option Nat
  processingInstanceId : Option String
deriving Repr, DecidableEq

/-- A row of the `conversations` table (`app/models.py`, class `Conversation`). -/
structure Conversation where
  id : Nat
  taskId : Nat
  content : String
  status : String
  createdAt : Nat
  updatedAt : Nat
deriving Repr, DecidableEq

/-- The durable store: both tables. -/
structure DB where
  tasks : List Task
  conversations : List Conversation
deriving Repr, DecidableEq

/-- Embeds `SELECT id FROM tasks WHERE status = 'pending' ORDER BY created_at ASC LIMIT 1`:
the first row, in a stable ascending scan by `created_at`, whose status is
`pending` (earliest creation time; ties resolved to the earlier row). -/
def oldestPending : List Task → Option Task
  | [] => none
  | t :: ts =>
    if t.status = "pending" then
      match oldestPending ts with
      | none => some t
      | some b => if b.createdAt < t.createdAt then some b else some t
    else oldestPending ts

/-- The row rewrite of the claim UPDATE: `SET status='processing',
processing_instance_id=:instance_id, updated_at=NOW() WHERE id=:task_id AND
status='pending'` applied to one row. -/
def claimRewrite (taskId : Nat) (instanceId : String) (now : Nat) (u : Task) : Task :=
  if u.id = taskId ∧ u.status = "pending" then
    { u with status := "processing", processingInstanceId := some instanceId, updatedAt := now }
  else u

/-- Embeds `TaskCRUD.get_next_pending_task` (`app/crud.py`): select the oldest pending
row (locked), flip it to `processing` owned by `instance_id`, commit, and
return the updated row; `None` when no pending row exists or the guarded
UPDATE matched nothing. -/
def get_next_pending_task (db : DB) (instanceId : String) (now : Nat) :
    Option Task × DB :=
  match oldestPending db.tasks with
  | none => (none, db)
  | some t =>
    if (db.tasks.filter
        (fun u => decide (u.id = t.id ∧ u.status = "pending"))).length > 0 then
      ((db.tasks.map (claimRewrite t.id instanceId now)).find?
         (fun u => decide (u.id = t.id)),
       { db with tasks := db.tasks.map (claimRewrite t.id instanceId now) })
    else
      (none, { db with tasks := db.tasks.map (claimRewrite t.id instanceId now) })

/-- The ownership guard shared by `complete_task` and `fail_task`:
`WHERE id = :task_id AND processing_instance_id = :instance_id AND
status = 'processing'`. -/
def ownGuard (taskId : Nat) (instanceId : String) (u : Task) : Prop :=
  u.id = taskId ∧ u.processingInstanceId = some instanceId ∧ u.status = "processing"

instance (taskId : Nat) (instanceId : String) (u : Task) :
    Decidable (ownGuard taskId instanceId u) := by
  unfold ownGuard; infer_instance

/-- The row rewrite of the `complete_task` UPDATE applied to one row. -/
def completeRewrite (taskId : Nat) (instanceId : String) (now : Nat) (u : Task) : Task :=
  if ownGuard taskId instanceId u then
    { u with status := "completed", processedAt := some now, updatedAt := now }
  else u

/-- Embeds `TaskCRUD.complete_task` (`app/crud.py`): guarded UPDATE to `completed`,
setting `processed_at` and `updated_at`; returns `rowcount > 0`. -/
def complete_task (db : DB) (taskId : Nat) (instanceId : String) (now : Nat) :
    Bool × DB :=
  (db.tasks.any (fun u => decide (ownGuard taskId instanceId u)),
   { db with tasks := db.tasks.map (completeRewrite taskId instanceId now) })

/-- The row rewrite of the `fail_task` UPDATE applied to one row. -/
def failRewrite (taskId : Nat) (instanceId : String) (now : Nat) (u : Task) : Task :=
  if ownGuard taskId instanceId u then
    { u with status := "failed", updatedAt := now }
  else u

/-- Embeds `TaskCRUD.fail_task` (`app/crud.py`): guarded UPDATE to `failed`, setting
`updated_at` only; returns `rowcount > 0`. -/
def fail_task (db : DB) (taskId : Nat) (instanceId : String) (now : Nat) :
    Bool × DB :=
  (db.tasks.any (fun u => decide (ownGuard taskId instanceId u)),
   { db with tasks := db.tasks.map (failRewrite taskId instanceId now) })

/-- Embeds `ConversationCRUD.update_conversations_by_task` (`app/crud.py`):
`UPDATE conversations SET status=:status, updated_at=NOW() WHERE
task_id=:task_id`; returns the rowcount. -/
def update_conversations_by_task (db : DB) (taskId : Nat) (status : String)
    (now : Nat) : Nat × DB :=
  let convs2 := db.conversations.map (fun c =>
    if c.taskId = taskId then { c with status := status, updatedAt := now } else c)
  ((db.conversations.filter (fun c => decide (c.taskId = taskId))).length,
   { db with conversations := convs2 })

/-- Embeds `TaskUpdate` (`app/schemas.py`): a partial update object; each field is
independently supplied or absent (pydantic `exclude_unset`).  `description`
may additionally be supplied as an explicit null (nullable column). -/
structure TaskUpdate where
  title : Option String := none
  description : Option (Option String) := none
  status : Option String := none
deriving Repr, DecidableEq

/-- The `setattr` loop of `TaskCRUD.update_task`: apply exactly the supplied
fields to one row. -/
def applyTaskUpdate (u : TaskUpdate) (t : Task) : Task :=
  let t1 := match u.title with | some v => { t with title := v } | none => t
  let t2 := match u.description with | some v => { t1 with description := v } | none => t1
  match u.status with | some v => { t2 with status := v } | none => t2

/-- Whether the partial update supplies no field at all (empty
`model_dump(exclude_unset=True)`), in which case no UPDATE is emitted. -/
def TaskUpdate.isEmpty (u : TaskUpdate) : Bool :=
  u.title.isNone && u.description.isNone && u.status.isNone

/-- Embeds `TaskCRUD.update_task` (`app/crud.py`): find the row by id (`None` when
absent), apply the supplied fields, refresh `updated_at` when an UPDATE is
emitted, and return the updated row. -/
def update_task (db : DB) (taskId : Nat) (u : TaskUpdate) (now : Nat) :
    Option Task × DB :=
  match db.tasks.find? (fun t => decide (t.id = taskId)) with
  | none => (none, db)
  | some _ =>
    let tasks2 := db.tasks.map (fun t =>
      if t.id = taskId then
        if u.isEmpty then t else { applyTaskUpdate u t with updatedAt := now }
      else t)
    (tasks2.find? (fun t => decide (t.id = taskId)), { db with tasks := tasks2 })

/-- Embeds `ConversationUpdate` (`app/schemas.py`): partial update object for a
conversation. -/
structure ConversationUpdate where
  content : Option String := none
  status : Option String := none
deriving Repr, DecidableEq

/-- The `setattr` loop of `ConversationCRUD.update_conversation`. -/
def applyConversationUpdate (u : ConversationUpdate) (c : Conversation) : Conversation :=
  let c1 := match u.content with | some v => { c with content := v } | none => c
  match u.status with | some v => { c1 with status := v } | none => c1

/-- Whether the conversation partial update supplies no field. -/
def ConversationUpdate.isEmpty (u : ConversationUpdate) : Bool :=
  u.content.isNone && u.status.isNone

/-- Embeds `ConversationCRUD.update_conversation` (`app/crud.py`). -/
def update_conversation (db : DB) (conversationId : Nat) (u : ConversationUpdate)
    (now : Nat) : Option Conversation × DB :=
  match db.conversations.find? (fun c => decide (c.id = conversationId)) with
  | none => (none, db)
  | some _ =>
    let convs2 := db.conversations.map (fun c =>
      if c.id = conversationId then
        if u.isEmpty then c else { applyConversationUpdate u c with updatedAt := now }
      else c)
    (convs2.find? (fun c => decide (c.id = conversationId)),
     { db with conversations := convs2 })

/-- Embeds `TaskCRUD.delete_task` (`app/crud.py`) together with the
`cascade="all, delete-orphan"` relationship of `app/models.py`: deleting a
task deletes the row and every conversation belonging to it; returns whether
the task existed. -/
def delete_task (db : DB) (taskId : Nat) : Bool × DB :=
  if db.tasks.any (fun t => decide (t.id = taskId)) then
    (true,
     { tasks := db.tasks.filter (fun t => decide (t.id ≠ taskId)),
       conversations := db.conversations.filter (fun c => decide (c.taskId ≠ taskId)) })
  else
    (false, db)

/-- Embeds `BackgroundTaskProcessor.process_task` (`app/background_worker.py`).
`faultInSleep` tells whether the simulated-processing step (the callback body
before the bulk conversation update) raises; the except-branch then calls
`fail_task` with this instance's id and returns `False`.  Otherwise the
conversations are bulk-set to `processed` and `complete_task` is attempted. -/
def process_task (db : DB) (instanceId : String) (taskId : Nat)
    (faultInSleep : Bool) (now : Nat) : Bool × DB :=
  if faultInSleep then
    let r := fail_task db taskId instanceId now
    (false, r.2)
  else
    let r1 := update_conversations_by_task db taskId "processed" now
    let r2 := complete_task r1.2 taskId instanceId now
    (r2.1, r2.2)

/-- One atomic store operation of the lifecycle engine, as issued by some
worker instance.  A history of the concurrent system is a list of these. -/
inductive Op where
  | claim (instanceId : String) (now : Nat)
  | complete (taskId : Nat) (instanceId : String) (now : Nat)
  | fail (taskId : Nat) (instanceId : String) (now : Nat)
deriving Repr, DecidableEq

/-- The state transition of one atomic operation. -/
def applyOp (db : DB) : Op → DB
  | .claim i n => (get_next_pending_task db i n).2
  | .complete t i n => (complete_task db t i n).2
  | .fail t i n => (fail_task db t i n).2

/-- The task id successfully claimed by an operation, when it is a claim that
returned a task. -/
def claimResult (db : DB) : Op → Option Nat
  | .claim i n => ((get_next_pending_task db i n).1).map (fun t => t.id)
  | _ => none

/-- Run a history of atomic operations. -/
def runTrace (db : DB) : List Op → DB
  | [] => db
  | op :: ops => runTrace (applyOp db op) ops

/-- The task ids successfully claimed along a history, in order. -/
def claimedIds (db : DB) : List Op → List Nat
  | [] => []
  | op :: ops =>
    match claimResult db op with
    | some k => k :: claimedIds (applyOp db op) ops
    | none => claimedIds (applyOp db op) ops

/-! ### Basic lemmas about the selection and the row rewrites -/

theorem oldestPending_eq_none {l : List Task} :
    oldestPending l = none ↔ ∀ t ∈ l, t.status ≠ "pending" := by
  induction l with
  | nil => simp [oldestPending]
  | cons t ts ih =>
    by_cases h : t.status = "pending"
    · cases hts : oldestPending ts with
      | none =>
        simp only [oldestPending, h, if_true, hts]
        constructor
        · intro hc; exact absurd hc (by simp)
        · intro hall; exact absurd h (hall t (List.mem_cons_self t ts))
      | some b =>
        simp only [oldestPending, h, if_true, hts]
        constructor
        · intro hc
          by_cases hlt : b.createdAt < t.createdAt <;> simp [hlt] at hc
        · intro hall; exact absurd h (hall t (List.mem_cons_self t ts))
    · simp only [oldestPending, h, if_false, ih, List.forall_mem_cons]
      exact ⟨fun hall => ⟨h, hall⟩, fun hall => hall.2⟩

theorem oldestPending_mem {l : List Task} {t : Task}
    (h : oldestPending l = some t) : t ∈ l ∧ t.status = "pending" := by
  induction l generalizing t with
  | nil => simp [oldestPending] at h
  | cons u us ih =>
    by_cases hs : u.status = "pending"
    · cases hus : oldestPending us with
      | none =>
        simp only [oldestPending, hs, if_true, hus, Option.some.injEq] at h
        subst h; exact ⟨List.mem_cons_self u us, hs⟩
      | some b =>
        simp only [oldestPending, hs, if_true, hus] at h
        by_cases hlt : b.createdAt < u.createdAt <;> simp [hlt] at h
        · subst h; exact ⟨List.mem_cons_of_mem u (ih hus).1, (ih hus).2⟩
        · subst h; exact ⟨List.mem_cons_self u us, hs⟩
    · simp only [oldestPending, hs, if_false] at h
      exact ⟨List.mem_cons_of_mem u (ih h).1, (ih h).2⟩

theorem oldestPending_le {l : List Task} {t : Task}
    (h : oldestPending l = some t) :
    ∀ s ∈ l, s.status = "pending" → t.createdAt ≤ s.createdAt := by
  induction l generalizing t with
  | nil => simp [oldestPending] at h
  | cons u us ih =>
    intro s hs hsp
    by_cases hu : u.status = "pending"
    · cases hus : oldestPending us with
      | none =>
        simp only [oldestPending, hu, if_true, hus, Option.some.injEq] at h
        subst h
        rcases List.mem_cons.mp hs with rfl | hmem
        · exact le_refl _
        · exact absurd hsp (oldestPending_eq_none.mp hus s hmem)
      | some b =>
        simp only [oldestPending, hu, if_true, hus] at h
        rcases List.mem_cons.mp hs with rfl | hmem
        · by_cases hlt : b.createdAt < s.createdAt <;> simp [hlt] at h
          · subst h; exact le_of_lt hlt
          · subst h; exact le_refl _
        · by_cases hlt : b.createdAt < u.createdAt <;> simp [hlt] at h
          · subst h; exact ih hus s hmem hsp
          · subst h; exact le_trans (not_lt.mp hlt) (ih hus s hmem hsp)
    · simp only [oldestPending, hu, if_false] at h
      rcases List.mem_cons.mp hs with rfl | hmem
      · exact absurd hsp hu
      · exact ih h s hmem hsp

theorem claimRewrite_id (k : Nat) (i : String) (n : Nat) (u : Task) :
    (claimRewrite k i n u).id = u.id := by
  unfold claimRewrite; split <;> rfl

theorem claimRewrite_cases (k : Nat) (i : String) (n : Nat) (u : Task) :
    claimRewrite k i n u = u ∨
    (u.id = k ∧ u.status = "pending" ∧
      claimRewrite k i n u =
        { u with status := "processing", processingInstanceId := some i,
                 updatedAt := n }) := by
  by_cases h : u.id = k ∧ u.status = "pending"
  · exact Or.inr ⟨h.1, h.2, by unfold claimRewrite; rw [if_pos h]⟩
  · exact Or.inl (by unfold claimRewrite; rw [if_neg h])

theorem claimRewrite_of_pending {k : Nat} {i : String} {n : Nat} {u : Task}
    (hid : u.id = k) (hp : u.status = "pending") :
    claimRewrite k i n u =
      { u with status := "processing", processingInstanceId := some i,
               updatedAt := n } := by
  unfold claimRewrite
  rw [if_pos ⟨hid, hp⟩]

theorem claimRewrite_not_pending {k : Nat} {i : String} {n : Nat} {u : Task}
    (hid : (claimRewrite k i n u).id = k) :
    (claimRewrite k i n u).status ≠ "pending" := by
  by_cases h : u.id = k ∧ u.status = "pending"
  · unfold claimRewrite; rw [if_pos h]; intro hc; exact absurd hc (by simp)
  · unfold claimRewrite at hid ⊢; rw [if_neg h] at hid ⊢
    intro hc
    exact h ⟨hid, hc⟩

theorem completeRewrite_cases (k : Nat) (i : String) (n : Nat) (u : Task) :
    (¬ ownGuard k i u ∧ completeRewrite k i n u = u) ∨
    (ownGuard k i u ∧
      completeRewrite k i n u =
        { u with status := "completed", processedAt := some n, updatedAt := n }) := by
  by_cases h : ownGuard k i u
  · exact Or.inr ⟨h, by unfold completeRewrite; rw [if_pos h]⟩
  · exact Or.inl ⟨h, by unfold completeRewrite; rw [if_neg h]⟩

theorem failRewrite_cases (k : Nat) (i : String) (n : Nat) (u : Task) :
    (¬ ownGuard k i u ∧ failRewrite k i n u = u) ∨
    (ownGuard k i u ∧
      failRewrite k i n u = { u with status := "failed", updatedAt := n }) := by
  by_cases h : ownGuard k i u
  · exact Or.inr ⟨h, by unfold failRewrite; rw [if_pos h]⟩
  · exact Or.inl ⟨h, by unfold failRewrite; rw [if_neg h]⟩

theorem map_id_of_mem {α : Type} {l : List α} {f : α → α}
    (h : ∀ x ∈ l, f x = x) : l.map f = l := by
  induction l with
  | nil => rfl
  | cons x xs ih =>
    simp only [List.map_cons, h x (List.mem_cons_self x xs),
      ih (fun y hy => h y (List.mem_cons_of_mem x hy))]

/-! ### Characterization of `get_next_pending_task` -/

theorem get_next_state (db : DB) (i : String) (n : Nat) :
    (get_next_pending_task db i n).2.tasks =
      (match oldestPending db.tasks with
       | none => db.tasks
       | some t => db.tasks.map (claimRewrite t.id i n)) ∧
    (get_next_pending_task db i n).2.conversations = db.conversations := by
  unfold get_next_pending_task
  cases h : oldestPending db.tasks with
  | none => exact ⟨rfl, rfl⟩
  | some t =>
    constructor <;> (split <;> (first | rfl | (split <;> rfl)))

theorem get_next_none_iff (db : DB) (i : String) (n : Nat) :
    (get_next_pending_task db i n).1 = none ↔
      ∀ t ∈ db.tasks, t.status ≠ "pending" := by
  unfold get_next_pending_task
  cases h : oldestPending db.tasks with
  | none =>
    simpa using oldestPending_eq_none.mp h
  | some t =>
    obtain ⟨hmem, hpend⟩ := oldestPending_mem h
    have hr : (db.tasks.filter
        (fun u => decide (u.id = t.id ∧ u.status = "pending"))).length > 0 := by
      have hmf : t ∈ db.tasks.filter
          (fun u => decide (u.id = t.id ∧ u.status = "pending")) :=
        List.mem_filter.mpr ⟨hmem, by simp [hpend]⟩
      refine List.length_pos.mpr (fun he => ?_)
      rw [he] at hmf
      exact absurd hmf (List.not_mem_nil t)
    simp only [hr, if_true]
    have hfind : ∃ u, (db.tasks.map (claimRewrite t.id i n)).find?
        (fun u => decide (u.id = t.id)) = some u := by
      cases hf : (db.tasks.map (claimRewrite t.id i n)).find?
          (fun u => decide (u.id = t.id)) with
      | some u => exact ⟨u, rfl⟩
      | none =>
        have hmm : claimRewrite t.id i n t ∈ db.tasks.map (claimRewrite t.id i n) :=
          List.mem_map_of_mem _ hmem
        have := List.find?_eq_none.mp hf _ hmm
        simp [claimRewrite_id] at this
    obtain ⟨u, hu⟩ := hfind
    simp only [hu, Option.some_ne_none, false_iff]
    intro hall
    exact hall t hmem hpend

theorem get_next_some_spec {db : DB} {i : String} {n : Nat} {u : Task}
    (hn : (db.tasks.map Task.id).Nodup)
    (h : (get_next_pending_task db i n).1 = some u) :
    ∃ t ∈ db.tasks, t.status = "pending" ∧
      (∀ s ∈ db.tasks, s.status = "pending" → t.createdAt ≤ s.createdAt) ∧
      u = { t with status := "processing", processingInstanceId := some i,
                   updatedAt := n } ∧
      (get_next_pending_task db i n).2.tasks =
        db.tasks.map (claimRewrite t.id i n) := by
  unfold get_next_pending_task at h
  cases hop : oldestPending db.tasks with
  | none => rw [hop] at h; simp at h
  | some t =>
    rw [hop] at h
    obtain ⟨hmem, hpend⟩ := oldestPending_mem hop
    refine ⟨t, hmem, hpend, oldestPending_le hop, ?_, ?_⟩
    · by_cases hr : (db.tasks.filter
          (fun v => decide (v.id = t.id ∧ v.status = "pending"))).length > 0
      · simp only [hr, if_true] at h
        have humem := List.mem_of_find?_eq_some h
        have huid : u.id = t.id := by
          have := List.find?_some h
          simpa using this
        obtain ⟨v, hv, hveq⟩ := List.mem_map.mp humem
        have hvid : v.id = t.id := by
          rw [← hveq] at huid; rwa [claimRewrite_id] at huid
        have hvt : v = t := List.inj_on_of_nodup_map hn hv hmem hvid
        subst hvt
        rw [← hveq, claimRewrite_of_pending rfl hpend]
      · simp only [hr, if_false] at h
        simp at h
    · rcases get_next_state db i n with ⟨hst, _⟩
      rw [hop] at hst
      exact hst

/-! ### Preservation of non-pending status along histories -/

theorem pending_mem_applyOp {db : DB} {op : Op} {u : Task}
    (hu : u ∈ (applyOp db op).tasks) (hp : u.status = "pending") :
    u ∈ db.tasks := by
  cases op with
  | claim i n =>
    rcases get_next_state db i n with ⟨hst, _⟩
    simp only [applyOp] at hu
    rw [hst] at hu
    cases hop : oldestPending db.tasks with
    | none => rw [hop] at hu; exact hu
    | some t =>
      rw [hop] at hu
      obtain ⟨v, hv, hveq⟩ := List.mem_map.mp hu
      rcases claimRewrite_cases t.id i n v with he | ⟨_, _, he⟩
      · rw [← hveq, he]; exact hv
      · rw [← hveq, he] at hp; exact absurd hp (by simp)
  | complete k i n =>
    simp only [applyOp, complete_task] at hu
    obtain ⟨v, hv, hveq⟩ := List.mem_map.mp hu
    rcases completeRewrite_cases k i n v with ⟨_, he⟩ | ⟨_, he⟩
    · rw [← hveq, he]; exact hv
    · rw [← hveq, he] at hp; exact absurd hp (by simp)
  | fail k i n =>
    simp only [applyOp, fail_task] at hu
    obtain ⟨v, hv, hveq⟩ := List.mem_map.mp hu
    rcases failRewrite_cases k i n v with ⟨_, he⟩ | ⟨_, he⟩
    · rw [← hveq, he]; exact hv
    · rw [← hveq, he] at hp; exact absurd hp (by simp)

/-- Predicate `noPending k db`: no row with id `k` is pending. Once true it stays true
along any history, and a claim can never return `k` from such a state. -/
def noPending (k : Nat) (db : DB) : Prop :=
  ∀ u ∈ db.tasks, u.id = k → u.status ≠ "pending"

theorem noPending_applyOp {k : Nat} {db : DB} {op : Op}
    (h : noPending k db) : noPending k (applyOp db op) := by
  intro u hu hid hp
  exact h u (pending_mem_applyOp hu hp) hid hp

theorem claimResult_some_pending {db : DB} {op : Op} {k : Nat}
    (h : claimResult db op = some k) :
    ∃ t ∈ db.tasks, t.status = "pending" ∧ t.id = k := by
  cases op with
  | complete _ _ _ => simp [claimResult] at h
  | fail _ _ _ => simp [claimResult] at h
  | claim i n =>
    simp only [claimResult, Option.map_eq_some'] at h
    obtain ⟨u, hu, hk⟩ := h
    unfold get_next_pending_task at hu
    cases hop : oldestPending db.tasks with
    | none => rw [hop] at hu; simp at hu
    | some t =>
      rw [hop] at hu
      obtain ⟨hmem, hpend⟩ := oldestPending_mem hop
      by_cases hr : (db.tasks.filter
          (fun v => decide (v.id = t.id ∧ v.status = "pending"))).length > 0
      · simp only [hr, if_true] at hu
        have huid : u.id = t.id := by
          have := List.find?_some hu
          simpa using this
        exact ⟨t, hmem, hpend, by rw [← hk, huid]⟩
      · simp only [hr, if_false] at hu; simp at hu

theorem claimResult_noPending_after {db : DB} {op : Op} {k : Nat}
    (h : claimResult db op = some k) : noPending k (applyOp db op) := by
  cases op with
  | complete _ _ _ => simp [claimResult] at h
  | fail _ _ _ => simp [claimResult] at h
  | claim i n =>
    simp only [claimResult, Option.map_eq_some'] at h
    obtain ⟨u, hu, hk⟩ := h
    unfold get_next_pending_task at hu
    cases hop : oldestPending db.tasks with
    | none => rw [hop] at hu; simp at hu
    | some t =>
      rw [hop] at hu
      by_cases hr : (db.tasks.filter
          (fun v => decide (v.id = t.id ∧ v.status = "pending"))).length > 0
      · simp only [hr, if_true] at hu
        have huid : u.id = t.id := by
          have := List.find?_some hu
          simpa using this
        have htk : t.id = k := by rw [← hk, huid]
        intro w hw hwid
        rcases get_next_state db i n with ⟨hst, _⟩
        simp only [applyOp] at hw
        rw [hst, hop] at hw
        obtain ⟨v, _, hveq⟩ := List.mem_map.mp hw
        rw [← hveq]
        apply claimRewrite_not_pending
        rw [hveq, hwid, htk]
      · simp only [hr, if_false] at hu; simp at hu

theorem noPending_claimResult_ne {db : DB} {op : Op} {k : Nat}
    (h : noPending k db) : claimResult db op ≠ some k := by
  intro hc
  obtain ⟨t, hmem, hpend, hid⟩ := claimResult_some_pending hc
  exact h t hmem hid hpend

theorem noPending_not_mem_claimedIds {k : Nat} {db : DB} {ops : List Op}
    (h : noPending k db) : k ∉ claimedIds db ops := by
  induction ops generalizing db with
  | nil => simp [claimedIds]
  | cons op ops ih =>
    simp only [claimedIds]
    cases hc : claimResult db op with
    | none => exact ih (noPending_applyOp h)
    | some j =>
      intro hmem
      rcases List.mem_cons.mp hmem with rfl | hmem2
      · exact noPending_claimResult_ne h hc
      · exact ih (noPending_applyOp h) hmem2

theorem claimedIds_nodup (db : DB) (ops : List Op) :
    (claimedIds db ops).Nodup := by
  induction ops generalizing db with
  | nil => simp [claimedIds]
  | cons op ops ih =>
    simp only [claimedIds]
    cases hc : claimResult db op with
    | none => exact ih (applyOp db op)
    | some k =>
      exact List.nodup_cons.mpr
        ⟨noPending_not_mem_claimedIds (claimResult_noPending_after hc),
         ih (applyOp db op)⟩

/-! ### Characterization of `complete_task` and `fail_task` -/

theorem complete_true_iff (db : DB) (tid : Nat) (i : String) (n : Nat) :
    (complete_task db tid i n).1 = true ↔ ∃ t ∈ db.tasks, ownGuard tid i t := by
  simp [complete_task, List.any_eq_true]

theorem fail_true_iff (db : DB) (tid : Nat) (i : String) (n : Nat) :
    (fail_task db tid i n).1 = true ↔ ∃ t ∈ db.tasks, ownGuard tid i t := by
  simp [fail_task, List.any_eq_true]

theorem complete_state_of_no_guard {db : DB} {tid : Nat} {i : String} {n : Nat}
    (h : ∀ t ∈ db.tasks, ¬ ownGuard tid i t) :
    (complete_task db tid i n).2 = db := by
  simp only [complete_task]
  have hm : db.tasks.map (completeRewrite tid i n) = db.tasks :=
    map_id_of_mem (fun x hx => by
      rcases completeRewrite_cases tid i n x with ⟨_, he⟩ | ⟨hg, _⟩
      · exact he
      · exact absurd hg (h x hx))
  rw [hm]

theorem fail_state_of_no_guard {db : DB} {tid : Nat} {i : String} {n : Nat}
    (h : ∀ t ∈ db.tasks, ¬ ownGuard tid i t) :
    (fail_task db tid i n).2 = db := by
  simp only [fail_task]
  have hm : db.tasks.map (failRewrite tid i n) = db.tasks :=
    map_id_of_mem (fun x hx => by
      rcases failRewrite_cases tid i n x with ⟨_, he⟩ | ⟨hg, _⟩
      · exact he
      · exact absurd hg (h x hx))
  rw [hm]

theorem complete_then_no_guard (db : DB) (tid : Nat) (i : String) (n : Nat) :
    ∀ u ∈ (complete_task db tid i n).2.tasks, ¬ ownGuard tid i u := by
  intro u hu
  simp only [complete_task] at hu
  obtain ⟨v, _, hveq⟩ := List.mem_map.mp hu
  rcases completeRewrite_cases tid i n v with ⟨hng, he⟩ | ⟨_, he⟩
  · rw [← hveq, he]; exact hng
  · rw [← hveq, he]
    intro hg
    exact absurd hg.2.2 (by simp)

/-! ### Claim theorems -/

theorem claim_after_tasks {db : DB} {i : String} {n k : Nat}
    (h : claimResult db (Op.claim i n) = some k) :
    (applyOp db (Op.claim i n)).tasks = db.tasks.map (claimRewrite k i n) := by
  simp only [claimResult, Option.map_eq_some'] at h
  obtain ⟨u, hu, hk⟩ := h
  unfold get_next_pending_task at hu
  cases hop : oldestPending db.tasks with
  | none => rw [hop] at hu; simp at hu
  | some t =>
    rw [hop] at hu
    by_cases hr : (db.tasks.filter
        (fun v => decide (v.id = t.id ∧ v.status = "pending"))).length > 0
    · simp only [hr, if_true] at hu
      have huid : u.id = t.id := by
        have := List.find?_some hu
        simpa using this
      have htk : t.id = k := by rw [← hk, huid]
      rcases get_next_state db i n with ⟨hst, _⟩
      simp only [applyOp]
      rw [hst, hop]
      show List.map (claimRewrite t.id i n) db.tasks = _
      rw [htk]
    · simp only [hr, if_false] at hu; simp at hu

/-- C1: mutual exclusion of claims.  Along any history of atomic store
operations (interleaving of any number of instances), the successfully
claimed task ids are pairwise distinct — no task id is ever claimed twice,
in particular not by two different instances.  Moreover, a successful claim
of id `k` by instance `i` transitions every pending row with that id to
`processing` owned by `i`, and afterwards no row with that id is pending, so
at most one instance ever observes itself as owner. -/
theorem C1_claim_mutual_exclusion (db : DB) (trace : List Op) :
    (claimedIds db trace).Nodup ∧
    ∀ (i : String) (n k : Nat),
      claimResult db (Op.claim i n) = some k →
      (∀ u ∈ db.tasks, u.id = k → u.status = "pending" →
        { u with status := "processing", processingInstanceId := some i,
                 updatedAt := n } ∈ (applyOp db (Op.claim i n)).tasks) ∧
      (∀ u ∈ (applyOp db (Op.claim i n)).tasks, u.id = k →
        u.status ≠ "pending") := by
  refine ⟨claimedIds_nodup db trace, ?_⟩
  intro i n k hc
  constructor
  · intro u hu hid hp
    rw [claim_after_tasks hc]
    have := claimRewrite_of_pending (k := k) (i := i) (n := n) hid hp
    rw [← this]
    exact List.mem_map_of_mem _ hu
  · exact fun u hu hid => claimResult_noPending_after hc u hu hid

/-- Witness for C1 at a concrete one-task store and a concrete race. -/
theorem C1_claim_mutual_exclusion_witness :
    (claimedIds (⟨[⟨1, "a", none, "pending", 0, 0, none, none⟩], []⟩ : DB)
      [Op.claim "A" 1, Op.claim "B" 2]).Nodup ∧
    ({ id := 1, title := "a", description := none, status := "processing",
       createdAt := 0, updatedAt := 1, processedAt := none,
       processingInstanceId := some "A" } : Task) ∈
      (applyOp (⟨[⟨1, "a", none, "pending", 0, 0, none, none⟩], []⟩ : DB)
        (Op.claim "A" 1)).tasks :=
  ⟨(C1_claim_mutual_exclusion
      (⟨[⟨1, "a", none, "pending", 0, 0, none, none⟩], []⟩ : DB)
      [Op.claim "A" 1, Op.claim "B" 2]).1,
   ((C1_claim_mutual_exclusion
      (⟨[⟨1, "a", none, "pending", 0, 0, none, none⟩], []⟩ : DB) []).2
      "A" 1 1 (by decide)).1
      ⟨1, "a", none, "pending", 0, 0, none, none⟩ (by decide) rfl rfl⟩

/-- C3: terminal-state immutability.  Every atomic claim/complete/fail step
rewrites the task table row-by-row; each row either stays exactly the same
(all fields included) or makes one of the three legal transitions
pending→processing, processing→completed, processing→failed.  Consequently a
row whose status is `completed` or `failed` is never changed at all. -/
theorem C3_terminal_immutability (db : DB) (op : Op) :
    List.Forall₂ (fun o nw =>
        nw = o ∨
        (o.status = "pending" ∧ nw.status = "processing") ∨
        (o.status = "processing" ∧ (nw.status = "completed" ∨ nw.status = "failed")))
      db.tasks (applyOp db op).tasks ∧
    List.Forall₂ (fun o nw =>
        (o.status = "completed" ∨ o.status = "failed") → nw = o)
      db.tasks (applyOp db op).tasks := by
  have hstep : List.Forall₂ (fun o nw =>
      nw = o ∨
      (o.status = "pending" ∧ nw.status = "processing") ∨
      (o.status = "processing" ∧ (nw.status = "completed" ∨ nw.status = "failed")))
      db.tasks (applyOp db op).tasks := by
    cases op with
    | claim i n =>
      rcases get_next_state db i n with ⟨hst, _⟩
      simp only [applyOp]
      rw [hst]
      cases hop : oldestPending db.tasks with
      | none =>
        exact List.forall₂_same.mpr (fun x _ => Or.inl rfl)
      | some t =>
        rw [List.forall₂_map_right_iff]
        refine List.forall₂_same.mpr (fun x _ => ?_)
        rcases claimRewrite_cases t.id i n x with he | ⟨_, hp, he⟩
        · exact Or.inl he
        · exact Or.inr (Or.inl ⟨hp, by rw [he]⟩)
    | complete k i n =>
      simp only [applyOp, complete_task]
      rw [List.forall₂_map_right_iff]
      refine List.forall₂_same.mpr (fun x _ => ?_)
      rcases completeRewrite_cases k i n x with ⟨_, he⟩ | ⟨hg, he⟩
      · exact Or.inl he
      · exact Or.inr (Or.inr ⟨hg.2.2, Or.inl (by rw [he])⟩)
    | fail k i n =>
      simp only [applyOp, fail_task]
      rw [List.forall₂_map_right_iff]
      refine List.forall₂_same.mpr (fun x _ => ?_)
      rcases failRewrite_cases k i n x with ⟨_, he⟩ | ⟨hg, he⟩
      · exact Or.inl he
      · exact Or.inr (Or.inr ⟨hg.2.2, Or.inr (by rw [he])⟩)
  refine ⟨hstep, hstep.imp ?_⟩
  intro o nw hcase hterm
  rcases hcase with he | ⟨hp, _⟩ | ⟨hp, _⟩
  · exact he
  · rcases hterm with hc | hc <;> rw [hp] at hc <;> exact absurd hc (by simp)
  · rcases hterm with hc | hc <;> rw [hp] at hc <;> exact absurd hc (by simp)

/-- Witness for C3 at a concrete store holding a completed and a failed row,
hit by a fail operation. -/
theorem C3_terminal_immutability_witness :
    List.Forall₂ (fun o nw =>
        (o.status = "completed" ∨ o.status = "failed") → nw = o)
      (⟨[⟨1, "a", none, "completed", 0, 0, some 5, some "A"⟩,
         ⟨2, "b", none, "failed", 0, 0, none, some "B"⟩], []⟩ : DB).tasks
      (applyOp (⟨[⟨1, "a", none, "completed", 0, 0, some 5, some "A"⟩,
                  ⟨2, "b", none, "failed", 0, 0, none, some "B"⟩], []⟩ : DB)
        (Op.fail 1 "A" 9)).tasks :=
  (C3_terminal_immutability
    (⟨[⟨1, "a", none, "completed", 0, 0, some 5, some "A"⟩,
       ⟨2, "b", none, "failed", 0, 0, none, some "B"⟩], []⟩ : DB)
    (Op.fail 1 "A" 9)).2

/-- C5: FIFO claim order.  The claim operation returns `none` exactly when no
pending task exists, and when it returns a task it is the pending row with
the earliest `created_at` (returned already transitioned to `processing`
under the claimant's ownership). -/
theorem C5_fifo_claim (db : DB) (i : String) (n : Nat)
    (hn : (db.tasks.map Task.id).Nodup) :
    ((get_next_pending_task db i n).1 = none ↔
      ∀ t ∈ db.tasks, t.status ≠ "pending") ∧
    (∀ u, (get_next_pending_task db i n).1 = some u →
      ∃ t ∈ db.tasks, t.status = "pending" ∧
        (∀ s ∈ db.tasks, s.status = "pending" → t.createdAt ≤ s.createdAt) ∧
        u = { t with status := "processing", processingInstanceId := some i,
                     updatedAt := n }) := by
  refine ⟨get_next_none_iff db i n, ?_⟩
  intro u hu
  obtain ⟨t, hmem, hpend, hmin, hueq, _⟩ := get_next_some_spec hn hu
  exact ⟨t, hmem, hpend, hmin, hueq⟩

/-- Witness for C5: three tasks created at times 1 < 2 < 3 are claimed by a
single claimant in creation order, and the claim on the emptied pending set
returns none. -/
theorem C5_fifo_claim_witness :
    claimedIds (⟨[⟨1, "a", none, "pending", 1, 1, none, none⟩,
                  ⟨2, "b", none, "pending", 2, 2, none, none⟩,
                  ⟨3, "c", none, "pending", 3, 3, none, none⟩], []⟩ : DB)
      [Op.claim "A" 10, Op.claim "A" 11, Op.claim "A" 12] = [1, 2, 3] ∧
    ((get_next_pending_task
        (⟨[⟨1, "a", none, "completed", 1, 1, some 9, some "A"⟩], []⟩ : DB)
        "A" 10).1 = none ↔
      ∀ t ∈ (⟨[⟨1, "a", none, "completed", 1, 1, some 9, some "A"⟩], []⟩ :
          DB).tasks, t.status ≠ "pending") :=
  ⟨by decide,
   (C5_fifo_claim
      (⟨[⟨1, "a", none, "completed", 1, 1, some 9, some "A"⟩], []⟩ : DB)
      "A" 10 (by decide)).1⟩

/-- C2: ownership guard on completion.  `complete_task` succeeds exactly when
some row has the given id, is `processing`, and is owned by the calling
instance; on failure the store is unchanged; on success the owned row moves
to `completed` with `processed_at` set, every other row is untouched, and a
subsequent `fail_task` by the same instance returns false and changes
nothing. -/
theorem C2_complete_guard (db : DB) (tid : Nat) (i : String) (n : Nat) :
    ((complete_task db tid i n).1 = true ↔
      ∃ t ∈ db.tasks, ownGuard tid i t) ∧
    ((complete_task db tid i n).1 = false → (complete_task db tid i n).2 = db) ∧
    (∀ t ∈ db.tasks, ownGuard tid i t →
      { t with status := "completed", processedAt := some n, updatedAt := n } ∈
          (complete_task db tid i n).2.tasks ∧
      (∀ s ∈ db.tasks, s.id ≠ tid → s ∈ (complete_task db tid i n).2.tasks) ∧
      (complete_task db tid i n).2.conversations = db.conversations ∧
      (∀ n2, (fail_task (complete_task db tid i n).2 tid i n2).1 = false ∧
        (fail_task (complete_task db tid i n).2 tid i n2).2 =
          (complete_task db tid i n).2)) := by
  refine ⟨complete_true_iff db tid i n, ?_, ?_⟩
  · intro hf
    apply complete_state_of_no_guard
    intro t hmem hg
    have := (complete_true_iff db tid i n).mpr ⟨t, hmem, hg⟩
    rw [hf] at this
    exact Bool.false_ne_true this
  · intro t hmem hg
    refine ⟨?_, ?_, rfl, ?_⟩
    · have he : completeRewrite tid i n t =
          { t with status := "completed", processedAt := some n, updatedAt := n } := by
        unfold completeRewrite; rw [if_pos hg]
      rw [← he]
      exact List.mem_map_of_mem _ hmem
    · intro s hs hsid
      have he : completeRewrite tid i n s = s := by
        unfold completeRewrite
        rw [if_neg (fun hg2 => hsid hg2.1)]
      have := List.mem_map_of_mem (completeRewrite tid i n) hs
      rwa [he] at this
    · intro n2
      have hng := complete_then_no_guard db tid i n
      constructor
      · cases hb : (fail_task (complete_task db tid i n).2 tid i n2).1 with
        | false => rfl
        | true =>
          obtain ⟨w, hw, hgw⟩ := (fail_true_iff _ tid i n2).mp hb
          exact absurd hgw (hng w hw)
      · exact fail_state_of_no_guard hng

/-- Witness for C2: instance B cannot complete A's task; A can, and a
subsequent fail by A is refused. -/
theorem C2_complete_guard_witness :
    ((complete_task
        (⟨[⟨1, "a", none, "processing", 0, 0, none, some "A"⟩], []⟩ : DB)
        1 "B" 7).1 = true ↔
      ∃ t ∈ (⟨[⟨1, "a", none, "processing", 0, 0, none, some "A"⟩], []⟩ :
          DB).tasks, ownGuard 1 "B" t) ∧
    ({ id := 1, title := "a", description := none, status := "completed",
       createdAt := 0, updatedAt := 7, processedAt := some 7,
       processingInstanceId := some "A" } : Task) ∈
      (complete_task
        (⟨[⟨1, "a", none, "processing", 0, 0, none, some "A"⟩], []⟩ : DB)
        1 "A" 7).2.tasks ∧
    (fail_task (complete_task
        (⟨[⟨1, "a", none, "processing", 0, 0, none, some "A"⟩], []⟩ : DB)
        1 "A" 7).2 1 "A" 8).1 = false :=
  ⟨(C2_complete_guard
      (⟨[⟨1, "a", none, "processing", 0, 0, none, some "A"⟩], []⟩ : DB)
      1 "B" 7).1,
   ((C2_complete_guard
      (⟨[⟨1, "a", none, "processing", 0, 0, none, some "A"⟩], []⟩ : DB)
      1 "A" 7).2.2 ⟨1, "a", none, "processing", 0, 0, none, some "A"⟩
      (by decide) ⟨rfl, rfl, rfl⟩).1,
   (((C2_complete_guard
      (⟨[⟨1, "a", none, "processing", 0, 0, none, some "A"⟩], []⟩ : DB)
      1 "A" 7).2.2 ⟨1, "a", none, "processing", 0, 0, none, some "A"⟩
      (by decide) ⟨rfl, rfl, rfl⟩).2.2.2 8).1⟩

/-- C6: `fail_task` succeeds under exactly the same guard as `complete_task`
(same boolean result on the same store), transitions the owned row to
`failed` while leaving `processed_at` at its prior value, leaves every other
row and the conversations untouched, and on failure changes nothing. -/
theorem C6_fail_guard (db : DB) (tid : Nat) (i : String) (n : Nat) :
    (fail_task db tid i n).1 = (complete_task db tid i n).1 ∧
    ((fail_task db tid i n).1 = true ↔ ∃ t ∈ db.tasks, ownGuard tid i t) ∧
    ((fail_task db tid i n).1 = false → (fail_task db tid i n).2 = db) ∧
    (∀ t ∈ db.tasks, ownGuard tid i t →
      { t with status := "failed", updatedAt := n } ∈ (fail_task db tid i n).2.tasks ∧
      ({ t with status := "failed", updatedAt := n } : Task).processedAt =
        t.processedAt ∧
      (∀ s ∈ db.tasks, s.id ≠ tid → s ∈ (fail_task db tid i n).2.tasks) ∧
      (fail_task db tid i n).2.conversations = db.conversations) := by
  refine ⟨rfl, fail_true_iff db tid i n, ?_, ?_⟩
  · intro hf
    apply fail_state_of_no_guard
    intro t hmem hg
    have := (fail_true_iff db tid i n).mpr ⟨t, hmem, hg⟩
    rw [hf] at this
    exact Bool.false_ne_true this
  · intro t hmem hg
    refine ⟨?_, rfl, ?_, rfl⟩
    · have he : failRewrite tid i n t =
          { t with status := "failed", updatedAt := n } := by
        unfold failRewrite; rw [if_pos hg]
      rw [← he]
      exact List.mem_map_of_mem _ hmem
    · intro s hs hsid
      have he : failRewrite tid i n s = s := by
        unfold failRewrite
        rw [if_neg (fun hg2 => hsid hg2.1)]
      have := List.mem_map_of_mem (failRewrite tid i n) hs
      rwa [he] at this

/-- Witness for C6 on a store with one processing row owned by A. -/
theorem C6_fail_guard_witness :
    ((fail_task
        (⟨[⟨1, "a", none, "processing", 0, 0, some 3, some "A"⟩], []⟩ : DB)
        1 "A" 7).1 = true ↔
      ∃ t ∈ (⟨[⟨1, "a", none, "processing", 0, 0, some 3, some "A"⟩], []⟩ :
          DB).tasks, ownGuard 1 "A" t) ∧
    ({ id := 1, title := "a", description := none, status := "failed",
       createdAt := 0, updatedAt := 7, processedAt := some 3,
       processingInstanceId := some "A" } : Task) ∈
      (fail_task
        (⟨[⟨1, "a", none, "processing", 0, 0, some 3, some "A"⟩], []⟩ : DB)
        1 "A" 7).2.tasks :=
  ⟨(C6_fail_guard
      (⟨[⟨1, "a", none, "processing", 0, 0, some 3, some "A"⟩], []⟩ : DB)
      1 "A" 7).2.1,
   ((C6_fail_guard
      (⟨[⟨1, "a", none, "processing", 0, 0, some 3, some "A"⟩], []⟩ : DB)
      1 "A" 7).2.2.2 ⟨1, "a", none, "processing", 0, 0, some 3, some "A"⟩
      (by decide) ⟨rfl, rfl, rfl⟩).1⟩

/-- C4: failure scenario.  If instance `i` owns task `tid` (status
`processing`) and its processing callback raises during the simulated work,
`process_task` reports failure, calls `fail_task` with its own instance id so
the row becomes `failed`, never reaches the bulk conversation update (the
conversations are exactly as before), and no later history of claim,
complete, or fail operations ever claims `tid` again. -/
theorem C4_failure_scenario (db : DB) (i : String) (tid n : Nat) (t : Task)
    (hn : (db.tasks.map Task.id).Nodup)
    (hmem : t ∈ db.tasks) (hid : t.id = tid)
    (hstat : t.status = "processing") (hown : t.processingInstanceId = some i) :
    (process_task db i tid true n).1 = false ∧
    (process_task db i tid true n).2.conversations = db.conversations ∧
    { t with status := "failed", updatedAt := n } ∈
      (process_task db i tid true n).2.tasks ∧
    (∀ u ∈ (process_task db i tid true n).2.tasks, u.id = tid →
      u.status = "failed") ∧
    (∀ ops : List Op, tid ∉ claimedIds (process_task db i tid true n).2 ops) := by
  have hg : ownGuard tid i t := ⟨hid, hown, hstat⟩
  have hrows : ∀ u ∈ (process_task db i tid true n).2.tasks, u.id = tid →
      u.status = "failed" := by
    intro u hu huid
    simp only [process_task, if_true, fail_task] at hu
    obtain ⟨v, hv, hveq⟩ := List.mem_map.mp hu
    rcases failRewrite_cases tid i n v with ⟨hng, he⟩ | ⟨_, he⟩
    · rw [← hveq, he] at huid ⊢
      have hvid : v.id = t.id := by rw [huid, hid]
      have hvt : v = t := List.inj_on_of_nodup_map hn hv hmem hvid
      exact absurd (hvt ▸ hg) hng
    · rw [← hveq, he]
  refine ⟨rfl, rfl, ?_, hrows, ?_⟩
  · have he : failRewrite tid i n t =
        { t with status := "failed", updatedAt := n } := by
      unfold failRewrite; rw [if_pos hg]
    show _ ∈ (fail_task db tid i n).2.tasks
    rw [← he]
    exact List.mem_map_of_mem _ hmem
  · intro ops
    apply noPending_not_mem_claimedIds
    intro u hu huid hp
    rw [hrows u hu huid] at hp
    exact absurd hp (by simp)

/-- Witness for C4: A owns task 1 with an `active` conversation; the callback
raises; the task fails, the conversation is untouched, and a further claim by
B does not return task 1. -/
theorem C4_failure_scenario_witness :
    (process_task
        (⟨[⟨1, "a", none, "processing", 0, 0, none, some "A"⟩],
          [⟨1, 1, "c", "active", 0, 0⟩]⟩ : DB) "A" 1 true 9).1 = false ∧
    (process_task
        (⟨[⟨1, "a", none, "processing", 0, 0, none, some "A"⟩],
          [⟨1, 1, "c", "active", 0, 0⟩]⟩ : DB) "A" 1 true 9).2.conversations =
      (⟨[⟨1, "a", none, "processing", 0, 0, none, some "A"⟩],
        [⟨1, 1, "c", "active", 0, 0⟩]⟩ : DB).conversations ∧
    1 ∉ claimedIds (process_task
        (⟨[⟨1, "a", none, "processing", 0, 0, none, some "A"⟩],
          [⟨1, 1, "c", "active", 0, 0⟩]⟩ : DB) "A" 1 true 9).2
        [Op.claim "B" 11] := by
  have h := C4_failure_scenario
    (⟨[⟨1, "a", none, "processing", 0, 0, none, some "A"⟩],
      [⟨1, 1, "c", "active", 0, 0⟩]⟩ : DB) "A" 1 9
    ⟨1, "a", none, "processing", 0, 0, none, some "A"⟩
    (by decide) (by decide) rfl rfl rfl
  exact ⟨h.1, h.2.1, h.2.2.2.2 [Op.claim "B" 11]⟩

theorem filter_length_taskId_map {l : List Conversation}
    {f : Conversation → Conversation} (hf : ∀ c, (f c).taskId = c.taskId)
    (tid : Nat) :
    ((l.map f).filter (fun c => decide (c.taskId = tid))).length =
      (l.filter (fun c => decide (c.taskId = tid))).length := by
  induction l with
  | nil => rfl
  | cons c cs ih =>
    simp only [List.map_cons, List.filter_cons, hf c]
    by_cases h : c.taskId = tid <;> simp [h, ih]

/-- C7: idempotent bulk update.  `update_conversations_by_task` sets the given
status on every conversation of the task regardless of its prior status,
touches no other conversation and no task, and returns the number of
conversations belonging to the task; running it twice in a row returns the
same count both times and leaves every conversation of the task at the given
status both times. -/
theorem C7_bulk_update_idempotent (db : DB) (tid : Nat) (s : String)
    (n1 n2 : Nat) :
    (update_conversations_by_task db tid s n1).1 =
      (db.conversations.filter (fun c => decide (c.taskId = tid))).length ∧
    (∀ c ∈ (update_conversations_by_task db tid s n1).2.conversations,
      c.taskId = tid → c.status = s) ∧
    (∀ c ∈ db.conversations, c.taskId ≠ tid →
      c ∈ (update_conversations_by_task db tid s n1).2.conversations) ∧
    (update_conversations_by_task db tid s n1).2.tasks = db.tasks ∧
    (update_conversations_by_task
        (update_conversations_by_task db tid s n1).2 tid s n2).1 =
      (update_conversations_by_task db tid s n1).1 ∧
    (∀ c ∈ (update_conversations_by_task
        (update_conversations_by_task db tid s n1).2 tid s n2).2.conversations,
      c.taskId = tid → c.status = s) := by
  have hstatus : ∀ (d : DB) (m : Nat) (c : Conversation),
      c ∈ (update_conversations_by_task d tid s m).2.conversations →
      c.taskId = tid → c.status = s := by
    intro d m c hc hcid
    simp only [update_conversations_by_task] at hc
    obtain ⟨v, _, hveq⟩ := List.mem_map.mp hc
    by_cases hv : v.taskId = tid
    · rw [← hveq]; rw [if_pos hv]
    · rw [← hveq, if_neg hv] at hcid; exact absurd hcid hv
  refine ⟨rfl, fun c hc => hstatus db n1 c hc, ?_, rfl, ?_,
    fun c hc => hstatus _ n2 c hc⟩
  · intro c hc hcid
    simp only [update_conversations_by_task]
    have he : (if c.taskId = tid then { c with status := s, updatedAt := n1 }
        else c) = c := if_neg hcid
    rw [← he]
    exact List.mem_map_of_mem _ hc
  · show ((db.conversations.map _).filter _).length = _
    exact filter_length_taskId_map
      (fun c => by by_cases h : c.taskId = tid <;> simp [h]) tid

/-- Witness for C7 at a task with two conversations, one already processed. -/
theorem C7_bulk_update_idempotent_witness :
    (update_conversations_by_task
        (⟨[], [⟨1, 1, "c", "active", 0, 0⟩, ⟨2, 1, "d", "processed", 0, 0⟩,
               ⟨3, 2, "e", "active", 0, 0⟩]⟩ : DB) 1 "processed" 5).1 = 2 ∧
    (update_conversations_by_task (update_conversations_by_task
        (⟨[], [⟨1, 1, "c", "active", 0, 0⟩, ⟨2, 1, "d", "processed", 0, 0⟩,
               ⟨3, 2, "e", "active", 0, 0⟩]⟩ : DB) 1 "processed" 5).2
        1 "processed" 6).1 =
      (update_conversations_by_task
        (⟨[], [⟨1, 1, "c", "active", 0, 0⟩, ⟨2, 1, "d", "processed", 0, 0⟩,
               ⟨3, 2, "e", "active", 0, 0⟩]⟩ : DB) 1 "processed" 5).1 :=
  ⟨by decide,
   (C7_bulk_update_idempotent
      (⟨[], [⟨1, 1, "c", "active", 0, 0⟩, ⟨2, 1, "d", "processed", 0, 0⟩,
             ⟨3, 2, "e", "active", 0, 0⟩]⟩ : DB) 1 "processed" 5 6).2.2.2.2.1⟩

/-! ### Partial updates -/

theorem applyTaskUpdate_spec (u : TaskUpdate) (t : Task) :
    (applyTaskUpdate u t).title = u.title.getD t.title ∧
    (applyTaskUpdate u t).description =
      (match u.description with | some v => v | none => t.description) ∧
    (applyTaskUpdate u t).status = u.status.getD t.status ∧
    (applyTaskUpdate u t).id = t.id ∧
    (applyTaskUpdate u t).createdAt = t.createdAt ∧
    (applyTaskUpdate u t).updatedAt = t.updatedAt ∧
    (applyTaskUpdate u t).processedAt = t.processedAt ∧
    (applyTaskUpdate u t).processingInstanceId = t.processingInstanceId := by
  rcases u with ⟨ut, ud, us⟩
  cases ut <;> cases ud <;> cases us <;>
    exact ⟨rfl, rfl, rfl, rfl, rfl, rfl, rfl, rfl⟩

theorem applyConversationUpdate_spec (u : ConversationUpdate) (c : Conversation) :
    (applyConversationUpdate u c).content = u.content.getD c.content ∧
    (applyConversationUpdate u c).status = u.status.getD c.status ∧
    (applyConversationUpdate u c).id = c.id ∧
    (applyConversationUpdate u c).taskId = c.taskId ∧
    (applyConversationUpdate u c).createdAt = c.createdAt ∧
    (applyConversationUpdate u c).updatedAt = c.updatedAt := by
  rcases u with ⟨uc, us⟩
  cases uc <;> cases us <;> exact ⟨rfl, rfl, rfl, rfl, rfl, rfl⟩

theorem update_task_not_found {db : DB} {tid : Nat} {u : TaskUpdate} {n : Nat}
    (h : ∀ t ∈ db.tasks, t.id ≠ tid) :
    update_task db tid u n = (none, db) := by
  have hf : db.tasks.find? (fun t => decide (t.id = tid)) = none :=
    List.find?_eq_none.mpr (fun x hx => by simpa using h x hx)
  simp [update_task, hf]

theorem update_task_found {db : DB} {tid : Nat} {u : TaskUpdate} {n : Nat}
    {t : Task} (hn : (db.tasks.map Task.id).Nodup) (hmem : t ∈ db.tasks)
    (hid : t.id = tid) :
    (update_task db tid u n).1 =
      some (if u.isEmpty then t
            else { applyTaskUpdate u t with updatedAt := n }) ∧
    (update_task db tid u n).2.tasks =
      db.tasks.map (fun x =>
        if x.id = tid then
          (if u.isEmpty then x else { applyTaskUpdate u x with updatedAt := n })
        else x) ∧
    (update_task db tid u n).2.conversations = db.conversations := by
  have hgid : ∀ x : Task,
      (if x.id = tid then
        (if u.isEmpty then x else { applyTaskUpdate u x with updatedAt := n })
       else x).id = x.id := by
    intro x
    by_cases hx : x.id = tid
    · rw [if_pos hx]
      by_cases he : u.isEmpty <;> simp [he, (applyTaskUpdate_spec u x).2.2.2.1]
    · rw [if_neg hx]
  have hfind : ∃ t0, db.tasks.find? (fun x => decide (x.id = tid)) = some t0 := by
    cases hf : db.tasks.find? (fun x => decide (x.id = tid)) with
    | some t0 => exact ⟨t0, rfl⟩
    | none =>
      have := List.find?_eq_none.mp hf t hmem
      simp [hid] at this
  obtain ⟨t0, hf⟩ := hfind
  have ht0mem := List.mem_of_find?_eq_some hf
  have ht0id : t0.id = tid := by
    have := List.find?_some hf
    simpa using this
  have ht0 : t0 = t :=
    List.inj_on_of_nodup_map hn ht0mem hmem (ht0id.trans hid.symm)
  subst ht0
  refine ⟨?_, by simp only [update_task, hf], by simp only [update_task, hf]⟩
  simp only [update_task, hf]
  rw [List.find?_map]
  have hpg : ((fun x : Task => decide (x.id = tid)) ∘ (fun x =>
      if x.id = tid then
        (if u.isEmpty then x else { applyTaskUpdate u x with updatedAt := n })
      else x)) = (fun x : Task => decide (x.id = tid)) := by
    funext x
    simp only [Function.comp]
    rw [hgid x]
  rw [hpg, hf]
  simp only [Option.map_some']
  rw [if_pos hid]

theorem update_conversation_not_found {db : DB} {cid : Nat}
    {u : ConversationUpdate} {n : Nat}
    (h : ∀ c ∈ db.conversations, c.id ≠ cid) :
    update_conversation db cid u n = (none, db) := by
  have hf : db.conversations.find? (fun c => decide (c.id = cid)) = none :=
    List.find?_eq_none.mpr (fun x hx => by simpa using h x hx)
  simp [update_conversation, hf]

theorem update_conversation_found {db : DB} {cid : Nat}
    {u : ConversationUpdate} {n : Nat} {c : Conversation}
    (hn : (db.conversations.map Conversation.id).Nodup)
    (hmem : c ∈ db.conversations) (hid : c.id = cid) :
    (update_conversation db cid u n).1 =
      some (if u.isEmpty then c
            else { applyConversationUpdate u c with updatedAt := n }) ∧
    (update_conversation db cid u n).2.conversations =
      db.conversations.map (fun x =>
        if x.id = cid then
          (if u.isEmpty then x
           else { applyConversationUpdate u x with updatedAt := n })
        else x) ∧
    (update_conversation db cid u n).2.tasks = db.tasks := by
  have hgid : ∀ x : Conversation,
      (if x.id = cid then
        (if u.isEmpty then x
         else { applyConversationUpdate u x with updatedAt := n })
       else x).id = x.id := by
    intro x
    by_cases hx : x.id = cid
    · rw [if_pos hx]
      by_cases he : u.isEmpty <;>
        simp [he, (applyConversationUpdate_spec u x).2.2.1]
    · rw [if_neg hx]
  have hfind : ∃ c0, db.conversations.find? (fun x => decide (x.id = cid)) =
      some c0 := by
    cases hf : db.conversations.find? (fun x => decide (x.id = cid)) with
    | some c0 => exact ⟨c0, rfl⟩
    | none =>
      have := List.find?_eq_none.mp hf c hmem
      simp [hid] at this
  obtain ⟨c0, hf⟩ := hfind
  have hc0mem := List.mem_of_find?_eq_some hf
  have hc0id : c0.id = cid := by
    have := List.find?_some hf
    simpa using this
  have hc0 : c0 = c :=
    List.inj_on_of_nodup_map hn hc0mem hmem (hc0id.trans hid.symm)
  subst hc0
  refine ⟨?_, by simp only [update_conversation, hf],
    by simp only [update_conversation, hf]⟩
  simp only [update_conversation, hf]
  rw [List.find?_map]
  have hpg : ((fun x : Conversation => decide (x.id = cid)) ∘ (fun x =>
      if x.id = cid then
        (if u.isEmpty then x
         else { applyConversationUpdate u x with updatedAt := n })
      else x)) = (fun x : Conversation => decide (x.id = cid)) := by
    funext x
    simp only [Function.comp]
    rw [hgid x]
  rw [hpg, hf]
  simp only [Option.map_some']
  rw [if_pos hid]

theorem isEmpty_task_fields {u : TaskUpdate} (h : u.isEmpty = true) :
    u.title = none ∧ u.description = none ∧ u.status = none := by
  rcases u with ⟨ut, ud, us⟩
  simp only [TaskUpdate.isEmpty, Bool.and_eq_true, Option.isNone_iff_eq_none] at h
  exact ⟨h.1.1, h.1.2, h.2⟩

theorem isEmpty_conversation_fields {u : ConversationUpdate}
    (h : u.isEmpty = true) : u.content = none ∧ u.status = none := by
  rcases u with ⟨uc, us⟩
  simp only [ConversationUpdate.isEmpty, Bool.and_eq_true,
    Option.isNone_iff_eq_none] at h
  exact h

/-- C8: partial-update frame.  `update_task` and `update_conversation` apply
exactly the fields supplied in the partial update object: each supplied field
takes the supplied value (including an explicit null for the task
description), each unsupplied field keeps its previous value, no other row of
either table is touched, and updating a nonexistent id returns not-found and
changes nothing. -/
theorem C8_partial_update_frame (db : DB) (tid cid : Nat) (u : TaskUpdate)
    (v : ConversationUpdate) (n : Nat)
    (hnT : (db.tasks.map Task.id).Nodup)
    (hnC : (db.conversations.map Conversation.id).Nodup) :
    ((∀ t ∈ db.tasks, t.id ≠ tid) → update_task db tid u n = (none, db)) ∧
    (∀ t ∈ db.tasks, t.id = tid →
      ∃ t2, (update_task db tid u n).1 = some t2 ∧
        t2.title = u.title.getD t.title ∧
        t2.description =
          (match u.description with | some w => w | none => t.description) ∧
        t2.status = u.status.getD t.status ∧
        t2.id = t.id ∧ t2.createdAt = t.createdAt ∧
        t2.processedAt = t.processedAt ∧
        t2.processingInstanceId = t.processingInstanceId ∧
        t2 ∈ (update_task db tid u n).2.tasks ∧
        (∀ s ∈ db.tasks, s.id ≠ tid → s ∈ (update_task db tid u n).2.tasks) ∧
        (update_task db tid u n).2.conversations = db.conversations) ∧
    ((∀ c ∈ db.conversations, c.id ≠ cid) →
      update_conversation db cid v n = (none, db)) ∧
    (∀ c ∈ db.conversations, c.id = cid →
      ∃ c2, (update_conversation db cid v n).1 = some c2 ∧
        c2.content = v.content.getD c.content ∧
        c2.status = v.status.getD c.status ∧
        c2.id = c.id ∧ c2.taskId = c.taskId ∧ c2.createdAt = c.createdAt ∧
        c2 ∈ (update_conversation db cid v n).2.conversations ∧
        (∀ d ∈ db.conversations, d.id ≠ cid →
          d ∈ (update_conversation db cid v n).2.conversations) ∧
        (update_conversation db cid v n).2.tasks = db.tasks) := by
  refine ⟨update_task_not_found, ?_, update_conversation_not_found, ?_⟩
  · intro t hmem hid
    obtain ⟨h1, h2, h3⟩ := update_task_found (u := u) (n := n) hnT hmem hid
    refine ⟨_, h1, ?_, ?_, ?_, ?_, ?_, ?_, ?_, ?_, ?_, h3⟩
    · by_cases he : u.isEmpty
      · rw [if_pos he, (isEmpty_task_fields he).1]; rfl
      · rw [if_neg he]; exact (applyTaskUpdate_spec u t).1
    · by_cases he : u.isEmpty
      · rw [if_pos he, (isEmpty_task_fields he).2.1]
      · rw [if_neg he]; exact (applyTaskUpdate_spec u t).2.1
    · by_cases he : u.isEmpty
      · rw [if_pos he, (isEmpty_task_fields he).2.2]; rfl
      · rw [if_neg he]; exact (applyTaskUpdate_spec u t).2.2.1
    · by_cases he : u.isEmpty
      · rw [if_pos he]
      · rw [if_neg he]; exact (applyTaskUpdate_spec u t).2.2.2.1
    · by_cases he : u.isEmpty
      · rw [if_pos he]
      · rw [if_neg he]; exact (applyTaskUpdate_spec u t).2.2.2.2.1
    · by_cases he : u.isEmpty
      · rw [if_pos he]
      · rw [if_neg he]; exact (applyTaskUpdate_spec u t).2.2.2.2.2.2.1
    · by_cases he : u.isEmpty
      · rw [if_pos he]
      · rw [if_neg he]; exact (applyTaskUpdate_spec u t).2.2.2.2.2.2.2
    · rw [h2]
      have : (if t.id = tid then
          (if u.isEmpty then t
           else { applyTaskUpdate u t with updatedAt := n }) else t) =
          (if u.isEmpty then t
           else { applyTaskUpdate u t with updatedAt := n }) := if_pos hid
      rw [← this]
      exact List.mem_map_of_mem _ hmem
    · intro s hs hsid
      rw [h2]
      have : (if s.id = tid then
          (if u.isEmpty then s
           else { applyTaskUpdate u s with updatedAt := n }) else s) = s :=
        if_neg hsid
      rw [← this]
      exact List.mem_map_of_mem _ hs
  · intro c hmem hid
    obtain ⟨h1, h2, h3⟩ := update_conversation_found (u := v) (n := n) hnC hmem hid
    refine ⟨_, h1, ?_, ?_, ?_, ?_, ?_, ?_, ?_, h3⟩
    · by_cases he : v.isEmpty
      · rw [if_pos he, (isEmpty_conversation_fields he).1]; rfl
      · rw [if_neg he]; exact (applyConversationUpdate_spec v c).1
    · by_cases he : v.isEmpty
      · rw [if_pos he, (isEmpty_conversation_fields he).2]; rfl
      · rw [if_neg he]; exact (applyConversationUpdate_spec v c).2.1
    · by_cases he : v.isEmpty
      · rw [if_pos he]
      · rw [if_neg he]; exact (applyConversationUpdate_spec v c).2.2.1
    · by_cases he : v.isEmpty
      · rw [if_pos he]
      · rw [if_neg he]; exact (applyConversationUpdate_spec v c).2.2.2.1
    · by_cases he : v.isEmpty
      · rw [if_pos he]
      · rw [if_neg he]; exact (applyConversationUpdate_spec v c).2.2.2.2.1
    · rw [h2]
      have : (if c.id = cid then
          (if v.isEmpty then c
           else { applyConversationUpdate v c with updatedAt := n }) else c) =
          (if v.isEmpty then c
           else { applyConversationUpdate v c with updatedAt := n }) :=
        if_pos hid
      rw [← this]
      exact List.mem_map_of_mem _ hmem
    · intro d hd hdid
      rw [h2]
      have : (if d.id = cid then
          (if v.isEmpty then d
           else { applyConversationUpdate v d with updatedAt := n }) else d) = d :=
        if_neg hdid
      rw [← this]
      exact List.mem_map_of_mem _ hd

/-- Witness for C8: a task update supplying title and an explicit null
description (status unsupplied), and a conversation update supplying only the
status, on a two-row store. -/
theorem C8_partial_update_frame_witness :
    (∃ t2, (update_task
        (⟨[⟨1, "old", some "d", "completed", 0, 0, some 4, some "A"⟩],
          [⟨7, 1, "c", "active", 0, 0⟩]⟩ : DB) 1
        ⟨some "new", some none, none⟩ 9).1 = some t2 ∧
      t2.title = (some "new").getD "old" ∧
      t2.description = none ∧
      t2.status = "completed" ∧
      t2.processedAt = some 4 ∧
      t2.processingInstanceId = some "A") ∧
    update_task (⟨[⟨1, "old", some "d", "completed", 0, 0, some 4, some "A"⟩],
        [⟨7, 1, "c", "active", 0, 0⟩]⟩ : DB) 2 ⟨some "x", none, none⟩ 9 =
      (none, ⟨[⟨1, "old", some "d", "completed", 0, 0, some 4, some "A"⟩],
        [⟨7, 1, "c", "active", 0, 0⟩]⟩) ∧
    (∃ c2, (update_conversation
        (⟨[⟨1, "old", some "d", "completed", 0, 0, some 4, some "A"⟩],
          [⟨7, 1, "c", "active", 0, 0⟩]⟩ : DB) 7 ⟨none, some "archived"⟩ 9).1 =
        some c2 ∧ c2.content = "c" ∧ c2.status = "archived") := by
  have h := C8_partial_update_frame
    (⟨[⟨1, "old", some "d", "completed", 0, 0, some 4, some "A"⟩],
      [⟨7, 1, "c", "active", 0, 0⟩]⟩ : DB) 1 7
    ⟨some "new", some none, none⟩ ⟨none, some "archived"⟩ 9
    (by decide) (by decide)
  have h2 := C8_partial_update_frame
    (⟨[⟨1, "old", some "d", "completed", 0, 0, some 4, some "A"⟩],
      [⟨7, 1, "c", "active", 0, 0⟩]⟩ : DB) 2 7
    ⟨some "x", none, none⟩ ⟨none, some "archived"⟩ 9
    (by decide) (by decide)
  refine ⟨?_, ?_, ?_⟩
  · obtain ⟨t2, ha, hb, hc, hd, _, _, hf, hg, _⟩ :=
      h.2.1 ⟨1, "old", some "d", "completed", 0, 0, some 4, some "A"⟩
        (by decide) rfl
    exact ⟨t2, ha, hb, hc, hd, hf, hg⟩
  · exact h2.1 (by decide)
  · obtain ⟨c2, ha, hb, hc, _⟩ :=
      h.2.2.2 ⟨7, 1, "c", "active", 0, 0⟩ (by decide) rfl
    exact ⟨c2, ha, hb, hc⟩

/-- C9: cascade delete.  Deleting an existing task returns true and removes
the task together with every conversation belonging to it, leaving every
other task and every conversation of other tasks in place and adding
nothing; deleting a nonexistent id returns false and changes nothing. -/
theorem C9_cascade_delete (db : DB) (tid : Nat) :
    ((∃ t ∈ db.tasks, t.id = tid) →
      (delete_task db tid).1 = true ∧
      (∀ t ∈ (delete_task db tid).2.tasks, t.id ≠ tid) ∧
      (∀ c ∈ (delete_task db tid).2.conversations, c.taskId ≠ tid) ∧
      (∀ t ∈ db.tasks, t.id ≠ tid → t ∈ (delete_task db tid).2.tasks) ∧
      (∀ c ∈ db.conversations, c.taskId ≠ tid →
        c ∈ (delete_task db tid).2.conversations) ∧
      (∀ t ∈ (delete_task db tid).2.tasks, t ∈ db.tasks) ∧
      (∀ c ∈ (delete_task db tid).2.conversations, c ∈ db.conversations)) ∧
    ((∀ t ∈ db.tasks, t.id ≠ tid) → delete_task db tid = (false, db)) := by
  constructor
  · intro ⟨t, hmem, hid⟩
    have hany : db.tasks.any (fun x => decide (x.id = tid)) = true :=
      List.any_eq_true.mpr ⟨t, hmem, by simp [hid]⟩
    simp only [delete_task, hany, if_true]
    refine ⟨by trivial, ?_, ?_, ?_, ?_, ?_, ?_⟩
    · intro x hx
      have := (List.mem_filter.mp hx).2
      simpa using this
    · intro c hc
      have := (List.mem_filter.mp hc).2
      simpa using this
    · intro x hx hxid
      exact List.mem_filter.mpr ⟨hx, by simpa using hxid⟩
    · intro c hc hcid
      exact List.mem_filter.mpr ⟨hc, by simpa using hcid⟩
    · intro x hx
      exact (List.mem_filter.mp hx).1
    · intro c hc
      exact (List.mem_filter.mp hc).1
  · intro h
    have hany : db.tasks.any (fun x => decide (x.id = tid)) = false := by
      rw [List.any_eq_false]
      intro x hx
      simpa using h x hx
    simp [delete_task, hany]

/-- Witness for C9: deleting task 1 removes it and its conversation but not
task 2's conversation; deleting absent id 99 is a no-op returning false. -/
theorem C9_cascade_delete_witness :
    (delete_task (⟨[⟨1, "a", none, "pending", 0, 0, none, none⟩],
        [⟨1, 1, "c", "active", 0, 0⟩, ⟨2, 2, "d", "active", 0, 0⟩]⟩ : DB)
      1).1 = true ∧
    (∀ c ∈ (delete_task (⟨[⟨1, "a", none, "pending", 0, 0, none, none⟩],
        [⟨1, 1, "c", "active", 0, 0⟩, ⟨2, 2, "d", "active", 0, 0⟩]⟩ : DB)
      1).2.conversations, c.taskId ≠ 1) ∧
    delete_task (⟨[⟨1, "a", none, "pending", 0, 0, none, none⟩],
        [⟨1, 1, "c", "active", 0, 0⟩, ⟨2, 2, "d", "active", 0, 0⟩]⟩ : DB) 99 =
      (false, ⟨[⟨1, "a", none, "pending", 0, 0, none, none⟩],
        [⟨1, 1, "c", "active", 0, 0⟩, ⟨2, 2, "d", "active", 0, 0⟩]⟩) := by
  have h := C9_cascade_delete
    (⟨[⟨1, "a", none, "pending", 0, 0, none, none⟩],
      [⟨1, 1, "c", "active", 0, 0⟩, ⟨2, 2, "d", "active", 0, 0⟩]⟩ : DB) 1
  have h99 := C9_cascade_delete
    (⟨[⟨1, "a", none, "pending", 0, 0, none, none⟩],
      [⟨1, 1, "c", "active", 0, 0⟩, ⟨2, 2, "d", "active", 0, 0⟩]⟩ : DB) 99
  obtain ⟨ha, _, hc, _⟩ :=
    h.1 ⟨⟨1, "a", none, "pending", 0, 0, none, none⟩, by decide, rfl⟩
  exact ⟨ha, hc, h99.2 (by decide)⟩

/-- C10: the external task update applies an arbitrary status string
unconditionally: whatever the row's current status and owner, supplying a
status in the partial update sets it; in particular a completed or failed
task reset to `pending` becomes claimable again (a subsequent claim cannot
return none). -/
theorem C10_update_status_unguarded (db : DB) (tid : Nat) (s : String)
    (n : Nat) (hn : (db.tasks.map Task.id).Nodup) :
    ∀ t ∈ db.tasks, t.id = tid →
      ∃ t2, (update_task db tid ⟨none, none, some s⟩ n).1 = some t2 ∧
        t2.status = s ∧ t2.id = tid ∧
        t2.processingInstanceId = t.processingInstanceId ∧
        t2 ∈ (update_task db tid ⟨none, none, some s⟩ n).2.tasks ∧
        (s = "pending" → ∀ (i : String) (n2 : Nat),
          (get_next_pending_task
            (update_task db tid ⟨none, none, some s⟩ n).2 i n2).1 ≠ none) := by
  intro t hmem hid
  obtain ⟨h1, h2, _⟩ :=
    update_task_found (u := ⟨none, none, some s⟩) (n := n) hn hmem hid
  have hne : (⟨none, none, some s⟩ : TaskUpdate).isEmpty = false := rfl
  rw [hne] at h1 h2
  simp only [if_false] at h1 h2
  have hmem2 : ({ applyTaskUpdate ⟨none, none, some s⟩ t with updatedAt := n } :
      Task) ∈ (update_task db tid ⟨none, none, some s⟩ n).2.tasks := by
    rw [h2]
    have he : (if t.id = tid then
        { applyTaskUpdate ⟨none, none, some s⟩ t with updatedAt := n } else t) =
        { applyTaskUpdate ⟨none, none, some s⟩ t with updatedAt := n } :=
      if_pos hid
    rw [← he]
    exact List.mem_map_of_mem _ hmem
  refine ⟨_, h1, ?_, ?_, ?_, hmem2, ?_⟩
  · exact (applyTaskUpdate_spec ⟨none, none, some s⟩ t).2.2.1
  · rw [(applyTaskUpdate_spec ⟨none, none, some s⟩ t).2.2.2.1]
    exact hid
  · exact (applyTaskUpdate_spec ⟨none, none, some s⟩ t).2.2.2.2.2.2.2
  · intro hs i n2 hnone
    have hall := (get_next_none_iff
      (update_task db tid ⟨none, none, some s⟩ n).2 i n2).mp hnone
    have := hall _ hmem2
    rw [show ({ applyTaskUpdate ⟨none, none, some s⟩ t with updatedAt := n } :
        Task).status = s from
      (applyTaskUpdate_spec ⟨none, none, some s⟩ t).2.2.1] at this
    exact this hs

/-- Witness for C10: a completed task owned by A is reset to `pending` by the
external update, and a subsequent claim does not return none. -/
theorem C10_update_status_unguarded_witness :
    ∃ t2, (update_task
        (⟨[⟨1, "a", none, "completed", 0, 0, some 4, some "A"⟩], []⟩ : DB)
        1 ⟨none, none, some "pending"⟩ 9).1 = some t2 ∧
      t2.status = "pending" ∧
      (get_next_pending_task (update_task
          (⟨[⟨1, "a", none, "completed", 0, 0, some 4, some "A"⟩], []⟩ : DB)
          1 ⟨none, none, some "pending"⟩ 9).2 "B" 10).1 ≠ none := by
  obtain ⟨t2, h1, h2, _, _, _, h6⟩ := C10_update_status_unguarded
    (⟨[⟨1, "a", none, "completed", 0, 0, some 4, some "A"⟩], []⟩ : DB)
    1 "pending" 9 (by decide)
    ⟨1, "a", none, "completed", 0, 0, some 4, some "A"⟩ (by decide) rfl
  exact ⟨t2, h1, h2, h6 rfl "B" 10⟩

end TaskEngine
